import Mathlib

set_option linter.unusedVariables false

/-!
A verification development for the NovaManager face-matching engine.

The Python matchers (`face_matcher.py`, `face_matcher_v2.py`,
`face_matcher_deepface.py`) are shallowly embedded here: float values become
exact rationals, numpy vectors become `List ℚ`, the detection + embedding
pipeline of an image file becomes an explicit oracle function
`String → Option (List ℚ)` (the `none` case covering "imread failed",
"no detection above threshold" and "degenerate crop"), and Python dicts become
association lists with last-write-wins semantics.  Euclidean norms (float
square roots in the source) are treated relationally: a value `n` is the norm
of `v` exactly when `0 ≤ n ∧ n ^ 2 = sumSq v`.
-/

namespace Nova

/-- Guard epsilon used throughout the matchers (the Python float literal `1e-7`). -/
def eps : ℚ := 1 / 10000000

/-- Dot product of two vectors (`np.dot` on 1-d arrays of equal length). -/
def dot (a b : List ℚ) : ℚ := (List.zipWith (fun x y => x * y) a b).sum

/-- Sum of squares of a vector: the square of its Euclidean norm. -/
def sumSq (l : List ℚ) : ℚ := (l.map (fun x => x ^ 2)).sum

/-- The relation "n is the Euclidean norm of v" (`np.linalg.norm(v) = n`). -/
def IsL2Norm (v : List ℚ) (n : ℚ) : Prop := 0 ≤ n ∧ n ^ 2 = sumSq v

/-- Componentwise difference of two vectors. -/
def vsub (a b : List ℚ) : List ℚ := List.zipWith (fun x y => x - y) a b

/-- Divide every component by a scalar (`v / c` on a numpy array). -/
def scaleInv (c : ℚ) (v : List ℚ) : List ℚ := v.map (fun x => x / c)

/-- Python `max` over a numeric list (meaningful only for nonempty lists;
the `[]` case never arises in the matchers). -/
def listMax : List ℚ → ℚ
  | [] => 0
  | x :: xs => xs.foldl max x

/-- Index of the first occurrence of `x` in `l` (Python `list.index`). -/
def firstIdx : List ℚ → ℚ → ℕ
  | [], _ => 0
  | a :: t, x => if a = x then 0 else firstIdx t x + 1

/-- Lookup in an association list under Python-dict semantics: the *last*
binding of a key wins (later `d[k] = v` assignments overwrite earlier ones,
as in `dict(zip(names, sims))` with duplicate names). -/
def lookupLast {α : Type} : List (String × α) → String → Option α
  | [], _ => none
  | (a, b) :: t, k =>
    match lookupLast t k with
    | some v => some v
    | none => if a = k then some b else none

/-- First-match lookup in an association list whose keys are unique. -/
def alookup {α : Type} : List (String × α) → String → Option α
  | [], _ => none
  | (a, b) :: t, k => if a = k then some b else alookup t k

/-- Python-dict insertion: overwrite the binding of `k` in place if present,
otherwise append `(k, v)` at the end (`results[str(img_path)] = rating`). -/
def dinsert {α : Type} : List (String × α) → String → α → List (String × α)
  | [], k, v => [(k, v)]
  | (a, b) :: t, k, v => if a = k then (k, v) :: t else (a, b) :: dinsert t k v

/-- Star-rating thresholds of `FaceMatcherV2.compare_face` (cosine similarity
of the handcrafted descriptors): `0.75 / 0.68 / 0.60 / 0.52`. -/
def v2Rating (s : ℚ) : ℕ :=
  if s > 75 / 100 then 5
  else if s > 68 / 100 then 4
  else if s > 60 / 100 then 3
  else if s > 52 / 100 then 2
  else 1

/-- Per-model star-rating thresholds of `FaceMatcherDeepFace.compare_face`:
an `if/elif` chain on the model name selects one of three threshold chains. -/
def dfRating (model : String) (s : ℚ) : ℕ :=
  if model = "Facenet" then
    if s > 80 / 100 then 5
    else if s > 70 / 100 then 4
    else if s > 60 / 100 then 3
    else if s > 50 / 100 then 2
    else 1
  else if model = "ArcFace" then
    if s > 85 / 100 then 5
    else if s > 75 / 100 then 4
    else if s > 65 / 100 then 3
    else if s > 55 / 100 then 2
    else 1
  else
    if s > 75 / 100 then 5
    else if s > 65 / 100 then 4
    else if s > 55 / 100 then 3
    else if s > 45 / 100 then 2
    else 1

/-- Mutable state of a `FaceMatcherV2` instance: the two parallel benchmark
lists `benchmark_embeddings` and `benchmark_names`. -/
structure V2State where
  benchmarkEmbeddings : List (List ℚ)
  benchmarkNames : List String
deriving DecidableEq

/-- `FaceMatcherV2.compare_face` with `return_details=False`.  The `oracle`
argument models `detect_faces` followed by `_compute_embedding`: it yields the
query descriptor, or `none` when the image cannot be read or no face is found. -/
def compareFace (st : V2State) (oracle : String → Option (List ℚ)) (p : String) : ℕ :=
  if st.benchmarkEmbeddings = [] then 0
  else
    match oracle p with
    | none => 0
    | some q => v2Rating (listMax (st.benchmarkEmbeddings.map (fun b => dot q b)))

/-- The detailed result dict of `FaceMatcherV2.compare_face` with
`return_details=True`: on the failure paths only `rating` and `error` are set;
on success `rating`, `best_similarity`, `best_match` and `all_similarities`. -/
structure Details where
  rating : ℕ
  errorMsg : Option String
  bestSimilarity : Option ℚ
  bestMatch : Option String
  allSimilarities : List (String × ℚ)
deriving DecidableEq

/-- `FaceMatcherV2.compare_face` with `return_details=True`.  `best_match` is
`benchmark_names[similarities.index(best)]`; `all_similarities` is the list
zipped into a dict (read through `lookupLast`). -/
def compareFaceDetails (st : V2State) (oracle : String → Option (List ℚ))
    (p : String) : Details :=
  if st.benchmarkEmbeddings = [] then ⟨0, some ("No benchmarks"), none, none, []⟩
  else
    match oracle p with
    | none => ⟨0, some ("No face detected"), none, none, []⟩
    | some q =>
      let sims := st.benchmarkEmbeddings.map (fun b => dot q b)
      let best := listMax sims
      ⟨v2Rating best, none, some best, st.benchmarkNames[firstIdx sims best]?,
        st.benchmarkNames.zip sims⟩

/-- `FaceMatcherV2.add_benchmark`: detect the best face, embed it, append the
descriptor and the name; report `False` (leaving the state alone) when
detection fails. -/
def addBenchmark (oracle : String → Option (List ℚ)) (st : V2State)
    (p nm : String) : Bool × V2State :=
  match oracle p with
  | none => (false, st)
  | some e => (true, ⟨st.benchmarkEmbeddings ++ [e], st.benchmarkNames ++ [nm]⟩)

/-- `FaceMatcherDeepFace.add_benchmark` over its `benchmarks` list of
`(name, embedding)` pairs. -/
def dfAddBenchmark (embed : String → Option (List ℚ)) (bs : List (String × List ℚ))
    (p nm : String) : Bool × List (String × List ℚ) :=
  match embed p with
  | none => (false, bs)
  | some e => (true, bs ++ [(nm, e)])

/-- Events observable while `batch_compare` runs: a progress-callback
invocation `call current total identifier`, and the completion of one item
(`compare_face` returned and the rating was stored). -/
inductive BatchEvent where
  | call (current total : ℕ) (ident : String)
  | item (path : String) (rating : ℕ)
deriving DecidableEq

/-- The loop body of `FaceMatcherV2.batch_compare`: `i` is the 0-based loop
index, `results` the dict built so far.  For each path the progress callback
fires first (with `i + 1`, the total, and `Path(p).name`, modelled by
`pathName`), then the item is compared and stored. -/
def batchGo (st : V2State) (oracle : String → Option (List ℚ))
    (pathName : String → String) (total : ℕ) :
    ℕ → List (String × ℕ) → List String → List (String × ℕ) × List BatchEvent
  | _, results, [] => (results, [])
  | i, results, p :: rest =>
    let r := compareFace st oracle p
    let next := batchGo st oracle pathName total (i + 1) (dinsert results p r) rest
    (next.1, BatchEvent.call (i + 1) total (pathName p) :: BatchEvent.item p r :: next.2)

/-- `FaceMatcherV2.batch_compare` (with a progress callback supplied): returns
the result dict and the trace of observable events. -/
def batchCompare (st : V2State) (oracle : String → Option (List ℚ))
    (pathName : String → String) (paths : List String) :
    List (String × ℕ) × List BatchEvent :=
  batchGo st oracle pathName paths.length 0 [] paths

/-- One raw detection of the DNN face detector, already scaled to pixel
coordinates and truncated to integers (`box.astype("int")`). -/
structure Detection where
  conf : ℚ
  x1 : Int
  y1 : Int
  x2 : Int
  y2 : Int
deriving DecidableEq

/-- Clip a detection box to the image bounds
(`max(0, x1), max(0, y1), min(w, x2), min(h, y2)`). -/
def clipBox (w h : Int) (d : Detection) : Detection :=
  ⟨d.conf, max 0 d.x1, max 0 d.y1, min w d.x2, min h d.y2⟩

/-- Detections that survive `detect_faces`: confidence above the threshold,
box clipped to bounds, and a nonempty crop (`face.size > 0`). -/
def survivors (θ : ℚ) (w h : Int) (dets : List Detection) : List Detection :=
  ((dets.filter (fun d => decide (d.conf > θ))).map (clipBox w h)).filter
    (fun d => decide (d.x1 < d.x2) && decide (d.y1 < d.y2))

/-- The most confident surviving detection; on equal confidence the earlier
one wins, matching Python's stable descending sort followed by `faces[0]`. -/
def pickBest : List Detection → Option Detection
  | [] => none
  | d :: t =>
    match pickBest t with
    | none => some d
    | some b => if b.conf > d.conf then some b else some d

/-- An image as far as `detect_faces` is concerned: its width and height. -/
structure Img where
  w : Int
  h : Int

/-- `FaceMatcherV2.detect_faces` with `return_all=False`.  The input is the
result of `cv2.imread` (`none` for an unreadable or corrupt file); `dets`
models the DNN forward pass.  An unreadable file and a face-free image both
yield the same silent `none`; there is no error channel in the code. -/
def detectFaces (dets : Img → List Detection) (θ : ℚ) (img : Option Img) :
    Option (List Detection) :=
  match img with
  | none => none
  | some im =>
    match pickBest (survivors θ im.w im.h (dets im)) with
    | none => none
    | some b => some [b]

/-- The three similarity metrics named in `FaceMatcherDeepFace.__init__`. -/
inductive Metric where
  | cosine
  | euclidean
  | euclideanL2
deriving DecidableEq

/-- `FaceMatcherDeepFace._compute_similarity`.  The norms the source obtains
from `np.linalg.norm` are passed relationally: `na, nb` are the norms of the
two embeddings, `d` the norm of their difference, `dl2` the norm of the
difference of the separately L2-normalized embeddings (each constrained by
`IsL2Norm` in the theorems that use this definition). -/
def computeSimilarity (metric : Metric) (a b : List ℚ) (na nb d dl2 : ℚ) : ℚ :=
  match metric with
  | .cosine => dot a b / (na * nb + eps)
  | .euclidean => max 0 (1 - d / (3 / 2))
  | .euclideanL2 => max 0 (1 - dl2 / 2)

/-- The SimilarityScorer formulas exactly as the spec words them, as a
refinement target for `computeSimilarity`: cosine is `dot/(‖a‖‖b‖+ε)`,
euclidean is `1 − min(‖a−b‖/1.5, 1)`, euclidean_l2 is `1 − min(d/2, 1)`. -/
def specSimilarity (metric : Metric) (a b : List ℚ) (na nb d dl2 : ℚ) : ℚ :=
  match metric with
  | .cosine => dot a b / (na * nb + eps)
  | .euclidean => 1 - min (d / (3 / 2)) 1
  | .euclideanL2 => 1 - min (dl2 / 2) 1

/-- `FaceMatcherDeepFace.compare_face` with `return_details=False`, generic in
the similarity computation (`sim`, instantiated by `computeSimilarity` with
the instance's metric).  `embed` models `_get_embedding` (`none` when no face
is found or any exception occurs). -/
def dfCompareFace (model : String) (sim : List ℚ → List ℚ → ℚ)
    (bench : List (String × List ℚ)) (embed : String → Option (List ℚ))
    (p : String) : ℕ :=
  if bench = [] then 0
  else
    match embed p with
    | none => 0
    | some e => dfRating model (listMax (bench.map (fun nb => sim e nb.2)))

/-- Modelled from the spec: a Descriptor is "an ordered, fixed-length sequence
of floating-point values plus a tag identifying which extraction strategy
produced it".  The source code has no tag — its descriptors are bare numpy
arrays — so this wrapper exists only to state the tag-mismatch claim. -/
structure SpecDescriptor where
  tag : String
  vec : List ℚ
deriving DecidableEq

/-- What the source scorer does when handed two (spec-level) tagged
descriptors: it reads only the raw vectors.  No tag comparison and no
`IncompatibleDescriptorsError` exist anywhere in the code. -/
def scoreDescriptors (metric : Metric) (a b : SpecDescriptor)
    (na nb d dl2 : ℚ) : ℚ :=
  computeSimilarity metric a.vec b.vec na nb d dl2

/-- The 8-bit local binary pattern code of `_compute_lbp_histogram` at
interior pixel `(i, j)` of the grayscale image `g`: each of the 8 neighbours
contributes its bit when strictly brighter than the center. -/
def lbpCode (g : ℕ → ℕ → ℕ) (i j : ℕ) : ℕ :=
  (if g (i - 1) (j - 1) > g i j then 128 else 0) +
  (if g (i - 1) j > g i j then 64 else 0) +
  (if g (i - 1) (j + 1) > g i j then 32 else 0) +
  (if g i (j + 1) > g i j then 16 else 0) +
  (if g (i + 1) (j + 1) > g i j then 8 else 0) +
  (if g (i + 1) j > g i j then 4 else 0) +
  (if g (i + 1) (j - 1) > g i j then 2 else 0) +
  (if g i (j - 1) > g i j then 1 else 0)

/-- The interior pixel grid of the 128×128 face crop: the LBP code matrix is
`(h-2)×(w-2) = 126×126`, pixel `(a, b)` of it holding the code at
`(a + 1, b + 1)`. -/
def interior : Finset (ℕ × ℕ) := Finset.range 126 ×ˢ Finset.range 126

/-- Bin `b` of the raw (uncorrected) LBP histogram: how many interior pixels
carry code `b` (`np.histogram(lbp.ravel(), bins=256, range=(0, 256))`). -/
def lbpCount (g : ℕ → ℕ → ℕ) (b : ℕ) : ℕ :=
  (interior.filter (fun p => lbpCode g (p.1 + 1) (p.2 + 1) = b)).card

/-- `hist.sum()`: the total mass of the raw LBP histogram. -/
def lbpHistTotal (g : ℕ → ℕ → ℕ) : ℕ := ∑ b ∈ Finset.range 256, lbpCount g b

/-- Bin `b` of the L1-normalized LBP histogram (`hist /= (hist.sum() + 1e-7)`). -/
def lbpHist (g : ℕ → ℕ → ℕ) (b : ℕ) : ℚ :=
  (lbpCount g b : ℚ) / ((lbpHistTotal g : ℚ) + eps)

/-- The 256-entry LBP sub-histogram as a vector. -/
def lbpList (g : ℕ → ℕ → ℕ) : List ℚ := (List.range 256).map (lbpHist g)

/-- The final normalization step of `_compute_embedding`:
`embedding / (np.linalg.norm(embedding) + 1e-7)`, with the norm `n` passed
relationally. -/
def normalizeWith (n : ℚ) (v : List ℚ) : List ℚ := v.map (fun x => x / (n + eps))

/-- The concatenated feature vector of `_compute_embedding` before its final
normalization: LBP histogram ++ HOG features ++ color histogram.  The HOG and
color sub-histograms involve float square roots, arctangents and an HSV
conversion, so they enter as arbitrary vectors; no property of theirs is
needed. -/
def fullEmbedding (g : ℕ → ℕ → ℕ) (hog color : List ℚ) : List ℚ :=
  lbpList g ++ hog ++ color

/-! Helper lemmas about the list and rating primitives. -/

theorem v2Rating_mono {s1 s2 : ℚ} (h : s1 ≤ s2) : v2Rating s1 ≤ v2Rating s2 := by
  unfold v2Rating
  split_ifs <;> first | omega | linarith

theorem v2Rating_range (s : ℚ) : 1 ≤ v2Rating s ∧ v2Rating s ≤ 5 := by
  unfold v2Rating
  split_ifs <;> omega

theorem dfRating_mono (model : String) {s1 s2 : ℚ} (h : s1 ≤ s2) :
    dfRating model s1 ≤ dfRating model s2 := by
  unfold dfRating
  split_ifs <;> first | omega | linarith

theorem dfRating_range (model : String) (s : ℚ) :
    1 ≤ dfRating model s ∧ dfRating model s ≤ 5 := by
  unfold dfRating
  split_ifs <;> omega

theorem foldl_max_le_acc (l : List ℚ) (a : ℚ) : a ≤ l.foldl max a := by
  induction l generalizing a with
  | nil => simp
  | cons x t ih => exact le_trans (le_max_left a x) (ih (max a x))

theorem le_foldl_max (l : List ℚ) (a y : ℚ) (hy : y ∈ l) : y ≤ l.foldl max a := by
  induction l generalizing a with
  | nil => simp at hy
  | cons x t ih =>
    rcases List.mem_cons.mp hy with h | h
    · subst h
      exact le_trans (le_max_right a y) (foldl_max_le_acc t (max a y))
    · exact ih (max a x) h

theorem foldl_max_mem (l : List ℚ) (a : ℚ) : l.foldl max a = a ∨ l.foldl max a ∈ l := by
  induction l generalizing a with
  | nil => simp
  | cons x t ih =>
    rcases ih (max a x) with h | h
    · rcases max_cases a x with ⟨he, _⟩ | ⟨he, _⟩
      · left; rw [List.foldl_cons, h, he]
      · right; rw [List.foldl_cons, h, he]; exact List.mem_cons_self x t
    · right; exact List.mem_cons_of_mem x h

theorem le_listMax {l : List ℚ} {y : ℚ} (hy : y ∈ l) : y ≤ listMax l := by
  cases l with
  | nil => simp at hy
  | cons x t =>
    rcases List.mem_cons.mp hy with h | h
    · subst h; exact foldl_max_le_acc t y
    · exact le_foldl_max t x y h

theorem listMax_mem {l : List ℚ} (hl : l ≠ []) : listMax l ∈ l := by
  cases l with
  | nil => exact absurd rfl hl
  | cons x t =>
    rcases foldl_max_mem t x with h | h
    · rw [listMax, h]; exact List.mem_cons_self x t
    · exact List.mem_cons_of_mem x h

theorem firstIdx_spec {l : List ℚ} {x : ℚ} (h : x ∈ l) :
    firstIdx l x < l.length ∧ l[firstIdx l x]? = some x := by
  induction l with
  | nil => simp at h
  | cons a t ih =>
    by_cases ha : a = x
    · subst ha
      constructor
      · simp [firstIdx]
      · simp [firstIdx]
    · rcases List.mem_cons.mp h with h1 | h1
      · exact absurd h1.symm ha
      · rcases ih h1 with ⟨hlt, hget⟩
        constructor
        · simpa [firstIdx, ha] using Nat.succ_lt_succ hlt
        · simpa [firstIdx, ha] using hget

theorem lookupLast_not_mem {k : String} :
    ∀ (ns : List String) (ss : List ℚ), k ∉ ns → lookupLast (ns.zip ss) k = none := by
  intro ns
  induction ns with
  | nil => intro ss _; simp [lookupLast]
  | cons a t ih =>
    intro ss hk
    cases ss with
    | nil => simp [lookupLast]
    | cons b u =>
      have ha : a ≠ k := fun h => hk (h ▸ List.mem_cons_self a t)
      have ht : k ∉ t := fun h => hk (List.mem_cons_of_mem a h)
      have ihu : lookupLast (List.zipWith Prod.mk t u) k = none := ih u ht
      simp only [List.zip_cons_cons, lookupLast, ihu]
      simp [ha]

theorem lookupLast_zip {k : String} :
    ∀ (ns : List String) (ss : List ℚ), ns.length = ss.length → k ∈ ns →
      ∃ j, j < ns.length ∧ ns[j]? = some k ∧ lookupLast (ns.zip ss) k = ss[j]? := by
  intro ns
  induction ns with
  | nil => intro ss _ hk; simp at hk
  | cons a t ih =>
    intro ss hlen hk
    cases ss with
    | nil => simp at hlen
    | cons b u =>
      have hlen' : t.length = u.length := by simpa using hlen
      by_cases hkt : k ∈ t
      · rcases ih u hlen' hkt with ⟨j, hj, hget, hlook⟩
        refine ⟨j + 1, by simpa using Nat.succ_lt_succ hj, by simpa using hget, ?_⟩
        have hu : u[j]? = some (u.get ⟨j, hlen' ▸ hj⟩) := by
          rw [List.getElem?_eq_getElem (hlen' ▸ hj)]
          simp [List.get_eq_getElem]
        have hlook2 : lookupLast (List.zipWith Prod.mk t u) k = u[j]? := hlook
        simp only [List.zip_cons_cons, lookupLast, hlook2, hu]
        rw [List.getElem?_cons_succ]
        exact hu.symm
      · have ha : a = k := by
          rcases List.mem_cons.mp hk with h | h
          · exact h.symm
          · exact absurd h hkt
        refine ⟨0, by simp, by simp [ha], ?_⟩
        have hnone : lookupLast (List.zipWith Prod.mk t u) k = none :=
          lookupLast_not_mem t u hkt
        simp only [List.zip_cons_cons, lookupLast, hnone]
        simp [ha]

/-- Oracle modelling a pipeline that always finds a face with descriptor `v`. -/
def oracleConst (v : List ℚ) : String → Option (List ℚ) := fun _ => some v

/-- Oracle modelling a pipeline that never produces a descriptor. -/
def oracleNone : String → Option (List ℚ) := fun _ => none

/-- C4: for each fixed threshold table (fixed model name / strategy), the
quantization from best similarity to star rating is monotonic: for all
similarities `s1 ≤ s2`, the rating of `s1` is at most the rating of `s2` —
for the `FaceMatcherV2` table and for every model-name table of
`FaceMatcherDeepFace`. -/
theorem C4_quantize_monotonic (model : String) (s1 s2 : ℚ) (h : s1 ≤ s2) :
    v2Rating s1 ≤ v2Rating s2 ∧ dfRating model s1 ≤ dfRating model s2 :=
  ⟨v2Rating_mono h, dfRating_mono model h⟩

/-- Witness for C4 at the concrete pair `0 ≤ 1` and model `ArcFace`. -/
theorem C4_quantize_monotonic_witness :
    (0 : ℚ) ≤ 1 ∧
      (v2Rating 0 ≤ v2Rating 1 ∧ dfRating ("ArcFace") 0 ≤ dfRating ("ArcFace") 1) :=
  ⟨by norm_num, C4_quantize_monotonic ("ArcFace") 0 1 (by norm_num)⟩

/-- C9: `compare_face` returns rating 0 exactly when the benchmark list is
empty or no face/embedding could be obtained from the query image; whenever at
least one benchmark exists and a face is found, the rating is in `1..5` (the
lowest threshold branch yields 1, never 0) — for `FaceMatcherV2` and for
`FaceMatcherDeepFace` under any model name and similarity function. -/
theorem C9_rating_zero_iff (st : V2State) (oracle : String → Option (List ℚ))
    (p : String) (model : String) (sim : List ℚ → List ℚ → ℚ)
    (bench : List (String × List ℚ)) (embed : String → Option (List ℚ))
    (pe : String) :
    (compareFace st oracle p = 0 ↔ st.benchmarkEmbeddings = [] ∨ oracle p = none)
    ∧ (st.benchmarkEmbeddings ≠ [] → oracle p ≠ none →
        1 ≤ compareFace st oracle p ∧ compareFace st oracle p ≤ 5)
    ∧ (dfCompareFace model sim bench embed pe = 0 ↔ bench = [] ∨ embed pe = none)
    ∧ (bench ≠ [] → embed pe ≠ none →
        1 ≤ dfCompareFace model sim bench embed pe
          ∧ dfCompareFace model sim bench embed pe ≤ 5) := by
  refine ⟨?_, ?_, ?_, ?_⟩
  · by_cases hb : st.benchmarkEmbeddings = []
    · simp [compareFace, hb]
    · cases ho : oracle p with
      | none => simp [compareFace, hb, ho]
      | some q =>
        have h1 := (v2Rating_range (listMax (st.benchmarkEmbeddings.map
          (fun b => dot q b)))).1
        simp only [compareFace, if_neg hb, ho]
        simp [hb]
        omega
  · intro hb ho
    rw [compareFace, if_neg hb]
    cases hoc : oracle p with
    | none => exact absurd hoc ho
    | some q => exact v2Rating_range _
  · by_cases hb : bench = []
    · simp [dfCompareFace, hb]
    · cases ho : embed pe with
      | none => simp [dfCompareFace, hb, ho]
      | some q =>
        have h1 := (dfRating_range model (listMax (bench.map (fun nb => sim q nb.2)))).1
        simp only [dfCompareFace, if_neg hb, ho]
        simp [hb]
        omega
  · intro hb ho
    rw [dfCompareFace, if_neg hb]
    cases hoc : embed pe with
    | none => exact absurd hoc ho
    | some q => exact dfRating_range model _

/-- Witness for C9 at a concrete one-benchmark state and a face-finding
oracle: the rating is nonzero and lies in `1..5`. -/
theorem C9_rating_zero_iff_witness :
    1 ≤ compareFace ⟨[[1]], [("a")]⟩ (oracleConst [1]) ("img")
      ∧ compareFace ⟨[[1]], [("a")]⟩ (oracleConst [1]) ("img") ≤ 5 :=
  ((C9_rating_zero_iff ⟨[[1]], [("a")]⟩ (oracleConst [1]) ("img") ("Facenet")
    (fun a b => dot a b) [] oracleNone ("img")).2.1)
    (by simp) (by simp [oracleConst])

/-- C10: `add_benchmark` is atomic: on failure (`False`) the benchmark lists
are left exactly as they were; on success (`True`) exactly one entry — the
computed descriptor and the given name — is appended at the end and all
previously stored entries are unchanged.  Proved for `FaceMatcherV2` and
`FaceMatcherDeepFace`. -/
theorem C10_add_benchmark_atomic (oracle embed : String → Option (List ℚ))
    (st : V2State) (bs : List (String × List ℚ)) (p nm : String) :
    ((addBenchmark oracle st p nm).1 = false → (addBenchmark oracle st p nm).2 = st)
    ∧ ((addBenchmark oracle st p nm).1 = true →
        ∃ e, oracle p = some e
          ∧ (addBenchmark oracle st p nm).2.benchmarkEmbeddings
              = st.benchmarkEmbeddings ++ [e]
          ∧ (addBenchmark oracle st p nm).2.benchmarkNames
              = st.benchmarkNames ++ [nm])
    ∧ ((dfAddBenchmark embed bs p nm).1 = false → (dfAddBenchmark embed bs p nm).2 = bs)
    ∧ ((dfAddBenchmark embed bs p nm).1 = true →
        ∃ e, embed p = some e ∧ (dfAddBenchmark embed bs p nm).2 = bs ++ [(nm, e)]) := by
  refine ⟨?_, ?_, ?_, ?_⟩
  · intro h
    cases ho : oracle p <;> simp [addBenchmark, ho] at h ⊢
  · intro h
    cases ho : oracle p with
    | none => simp [addBenchmark, ho] at h
    | some e => exact ⟨e, rfl, by simp [addBenchmark, ho]⟩
  · intro h
    cases ho : embed p <;> simp [dfAddBenchmark, ho] at h ⊢
  · intro h
    cases ho : embed p with
    | none => simp [dfAddBenchmark, ho] at h
    | some e => exact ⟨e, rfl, by simp [dfAddBenchmark, ho]⟩

/-- Witness for C10: a failing add leaves a concrete state untouched. -/
theorem C10_add_benchmark_atomic_witness :
    (addBenchmark oracleNone ⟨[], []⟩ ("p") ("n")).2 = ⟨[], []⟩ :=
  (C10_add_benchmark_atomic oracleNone oracleNone ⟨[], []⟩ [] ("p") ("n")).1 rfl

/-- Counterexample to C2 as stated: with an empty benchmark set both matchers
return the numeric rating 0 (the detailed variant returns a dict with an error
string); no `NoBenchmarksError` is raised — the identifier does not even exist
in the source. -/
theorem C2_counterexample :
    compareFace ⟨[], []⟩ (oracleConst [1]) ("img") = 0
    ∧ (compareFaceDetails ⟨[], []⟩ (oracleConst [1]) ("img")).rating = 0
    ∧ (compareFaceDetails ⟨[], []⟩ (oracleConst [1]) ("img")).errorMsg
        = some ("No benchmarks")
    ∧ dfCompareFace ("Facenet") (fun a b => dot a b) [] (oracleConst [1]) ("img") = 0 :=
  ⟨rfl, rfl, rfl, rfl⟩

/-- C2 (amended): for every query image, calling the comparison operation
while the benchmark set is empty returns the sentinel rating 0 — in the
detailed variant a rating-0 result carrying the error string
`"No benchmarks"` — rather than raising a dedicated `NoBenchmarksError`. -/
theorem C2_empty_benchmarks_zero (oracle embed : String → Option (List ℚ))
    (nms : List String) (model : String) (sim : List ℚ → List ℚ → ℚ)
    (p : String) :
    compareFace ⟨[], nms⟩ oracle p = 0
    ∧ compareFaceDetails ⟨[], nms⟩ oracle p
        = ⟨0, some ("No benchmarks"), none, none, []⟩
    ∧ dfCompareFace model sim [] embed p = 0 :=
  ⟨rfl, rfl, rfl⟩

/-- C1: for every query image in which a face is found and every non-empty
benchmark set, `FaceMatcherV2.compare_face` scores the query descriptor
against every benchmark entry (one similarity per entry, the `i`-th being the
dot product with entry `i`); the reported best similarity is the maximum over
those entries; the best-match name is the name of an entry attaining that
maximum; and the detailed result maps every benchmark entry name to the
similarity score of an entry carrying that name (last write wins on duplicate
names, per Python dict semantics). -/
theorem C1_compare_face_best_match (st : V2State)
    (oracle : String → Option (List ℚ)) (p : String) (q : List ℚ)
    (hlen : st.benchmarkNames.length = st.benchmarkEmbeddings.length)
    (hne : st.benchmarkEmbeddings ≠ [])
    (hq : oracle p = some q) :
    (st.benchmarkEmbeddings.map (fun b => dot q b)).length
        = st.benchmarkEmbeddings.length
    ∧ (∀ i, (hi : i < st.benchmarkEmbeddings.length) →
        (st.benchmarkEmbeddings.map (fun b => dot q b))[i]?
          = some (dot q (st.benchmarkEmbeddings.get ⟨i, hi⟩)))
    ∧ (compareFaceDetails st oracle p).bestSimilarity
        = some (listMax (st.benchmarkEmbeddings.map (fun b => dot q b)))
    ∧ (∀ s ∈ st.benchmarkEmbeddings.map (fun b => dot q b),
        s ≤ listMax (st.benchmarkEmbeddings.map (fun b => dot q b)))
    ∧ listMax (st.benchmarkEmbeddings.map (fun b => dot q b))
        ∈ st.benchmarkEmbeddings.map (fun b => dot q b)
    ∧ (∃ i, i < st.benchmarkEmbeddings.length
        ∧ (compareFaceDetails st oracle p).bestMatch = st.benchmarkNames[i]?
        ∧ (st.benchmarkEmbeddings.map (fun b => dot q b))[i]?
            = some (listMax (st.benchmarkEmbeddings.map (fun b => dot q b))))
    ∧ (∀ i, (hi : i < st.benchmarkNames.length) →
        ∃ j, ∃ hj : j < st.benchmarkNames.length,
          st.benchmarkNames.get ⟨j, hj⟩ = st.benchmarkNames.get ⟨i, hi⟩
          ∧ lookupLast (compareFaceDetails st oracle p).allSimilarities
              (st.benchmarkNames.get ⟨i, hi⟩)
            = (st.benchmarkEmbeddings.map (fun b => dot q b))[j]?) := by
  have hsne : st.benchmarkEmbeddings.map (fun b => dot q b) ≠ [] := by
    simpa using hne
  have hmem : listMax (st.benchmarkEmbeddings.map (fun b => dot q b))
      ∈ st.benchmarkEmbeddings.map (fun b => dot q b) := listMax_mem hsne
  have hd : compareFaceDetails st oracle p =
      ⟨v2Rating (listMax (st.benchmarkEmbeddings.map (fun b => dot q b))), none,
        some (listMax (st.benchmarkEmbeddings.map (fun b => dot q b))),
        st.benchmarkNames[firstIdx (st.benchmarkEmbeddings.map (fun b => dot q b))
          (listMax (st.benchmarkEmbeddings.map (fun b => dot q b)))]?,
        st.benchmarkNames.zip (st.benchmarkEmbeddings.map (fun b => dot q b))⟩ := by
    rw [compareFaceDetails, if_neg hne, hq]
  have hslen : st.benchmarkNames.length
      = (st.benchmarkEmbeddings.map (fun b => dot q b)).length := by
    rw [List.length_map]; exact hlen
  refine ⟨List.length_map _ _, ?_, ?_, ?_, hmem, ?_, ?_⟩
  · intro i hi
    rw [List.getElem?_map]
    rw [List.getElem?_eq_getElem hi]
    simp [List.get_eq_getElem]
  · rw [hd]
  · intro s hs
    exact le_listMax hs
  · rcases firstIdx_spec hmem with ⟨hflt, hfget⟩
    refine ⟨firstIdx (st.benchmarkEmbeddings.map (fun b => dot q b))
      (listMax (st.benchmarkEmbeddings.map (fun b => dot q b))), ?_, ?_, hfget⟩
    · rw [List.length_map] at hflt; exact hflt
    · rw [hd]
  · intro i hi
    have hk : st.benchmarkNames.get ⟨i, hi⟩ ∈ st.benchmarkNames := List.get_mem _ _ hi
    rcases lookupLast_zip st.benchmarkNames
      (st.benchmarkEmbeddings.map (fun b => dot q b)) hslen hk with
      ⟨j, hj, hget, hlook⟩
    have hjget : st.benchmarkNames.get ⟨j, hj⟩ = st.benchmarkNames.get ⟨i, hi⟩ := by
      have := List.getElem?_eq_getElem hj
      rw [this] at hget
      simpa [List.get_eq_getElem] using hget
    refine ⟨j, hj, hjget, ?_⟩
    rw [hd]
    exact hlook

/-- Witness for C1 at a two-benchmark state whose second entry scores higher. -/
theorem C1_compare_face_best_match_witness :
    (compareFaceDetails ⟨[[1, 0], [0, 1]], [("a"), ("b")]⟩
        (oracleConst [0, 1]) ("img")).bestSimilarity
      = some (listMax ([[1, 0], [0, 1]].map (fun b => dot [0, 1] b))) := by
  have h := C1_compare_face_best_match ⟨[[1, 0], [0, 1]], [("a"), ("b")]⟩
    (oracleConst [0, 1]) ("img") [0, 1] (by decide) (by decide) rfl
  exact h.2.2.1

/-! Lemmas about dict insertion and the batch loop. -/

theorem alookup_dinsert_self {α : Type} (d : List (String × α)) (k : String) (v : α) :
    alookup (dinsert d k v) k = some v := by
  induction d with
  | nil => simp [dinsert, alookup]
  | cons a t ih =>
    obtain ⟨ak, av⟩ := a
    by_cases h : ak = k
    · simp [dinsert, h, alookup]
    · simp [dinsert, h, alookup, ih]

theorem alookup_dinsert_ne {α : Type} (d : List (String × α)) (k k' : String) (v : α)
    (h : k' ≠ k) : alookup (dinsert d k v) k' = alookup d k' := by
  have hkk : ¬k = k' := Ne.symm h
  induction d with
  | nil => simp [dinsert, alookup, hkk]
  | cons a t ih =>
    obtain ⟨ak, av⟩ := a
    by_cases hk : ak = k
    · subst hk
      simp [dinsert, alookup, hkk]
    · by_cases hk' : ak = k'
      · subst hk'
        simp [dinsert, hk, alookup]
      · simp [dinsert, hk, alookup, hk', ih]

theorem mem_dinsert {α : Type} (pr : String × α) (d : List (String × α)) (k : String)
    (v : α) (h : pr ∈ dinsert d k v) : pr ∈ d ∨ pr = (k, v) := by
  induction d with
  | nil => simpa [dinsert] using h
  | cons a t ih =>
    obtain ⟨ak, av⟩ := a
    by_cases hk : ak = k
    · subst hk
      simp only [dinsert, if_pos rfl] at h
      rcases List.mem_cons.mp h with h1 | h1
      · exact Or.inr h1
      · exact Or.inl (List.mem_cons_of_mem _ h1)
    · simp only [dinsert, if_neg hk] at h
      rcases List.mem_cons.mp h with h1 | h1
      · exact Or.inl (by rw [h1]; exact List.mem_cons_self _ _)
      · rcases ih h1 with h2 | h2
        · exact Or.inl (List.mem_cons_of_mem _ h2)
        · exact Or.inr h2

theorem map_fst_dinsert {α : Type} (d : List (String × α)) (k : String) (v : α) :
    (dinsert d k v).map Prod.fst =
      if k ∈ d.map Prod.fst then d.map Prod.fst else d.map Prod.fst ++ [k] := by
  induction d with
  | nil => simp [dinsert]
  | cons a t ih =>
    obtain ⟨ak, av⟩ := a
    by_cases hk : ak = k
    · subst hk
      simp [dinsert]
    · simp only [dinsert, if_neg hk, List.map_cons, ih]
      by_cases hmem : k ∈ t.map Prod.fst
      · simp [hmem, hk, Ne.symm hk]
      · simp [hmem, hk, Ne.symm hk]

theorem nodup_dinsert {α : Type} (d : List (String × α)) (k : String) (v : α)
    (h : (d.map Prod.fst).Nodup) : ((dinsert d k v).map Prod.fst).Nodup := by
  rw [map_fst_dinsert]
  by_cases hmem : k ∈ d.map Prod.fst
  · simpa [hmem] using h
  · simp only [if_neg hmem]
    rw [List.nodup_append]
    refine ⟨h, List.nodup_singleton k, fun x hx hxk => hmem ?_⟩
    rw [List.mem_singleton] at hxk
    rwa [hxk] at hx

theorem foldl_dinsert_alookup {α : Type} (f : String → α) :
    ∀ (ps : List String) (acc : List (String × α)) (p : String),
      (alookup acc p = some (f p) ∨ p ∈ ps) →
      alookup (ps.foldl (fun d q => dinsert d q (f q)) acc) p = some (f p) := by
  intro ps
  induction ps with
  | nil =>
    intro acc p h
    rcases h with h | h
    · exact h
    · simp at h
  | cons q t ih =>
    intro acc p h
    rw [List.foldl_cons]
    by_cases hpq : p = q
    · subst hpq
      exact ih _ p (Or.inl (alookup_dinsert_self acc p (f p)))
    · rcases h with h | h
      · exact ih _ p (Or.inl ((alookup_dinsert_ne acc q p (f q) hpq).trans h))
      · rcases List.mem_cons.mp h with h1 | h1
        · exact absurd h1 hpq
        · exact ih _ p (Or.inr h1)

theorem foldl_dinsert_mem {α : Type} (f : String → α) :
    ∀ (ps : List String) (acc : List (String × α)) (pr : String × α),
      pr ∈ ps.foldl (fun d q => dinsert d q (f q)) acc →
      pr ∈ acc ∨ (pr.1 ∈ ps ∧ pr.2 = f pr.1) := by
  intro ps
  induction ps with
  | nil => intro acc pr h; exact Or.inl h
  | cons q t ih =>
    intro acc pr h
    rw [List.foldl_cons] at h
    rcases ih _ pr h with h1 | h1
    · rcases mem_dinsert pr acc q (f q) h1 with h2 | h2
      · exact Or.inl h2
      · subst h2
        exact Or.inr ⟨List.mem_cons_self _ _, rfl⟩
    · exact Or.inr ⟨List.mem_cons_of_mem _ h1.1, h1.2⟩

theorem foldl_dinsert_nodup {α : Type} (f : String → α) :
    ∀ (ps : List String) (acc : List (String × α)),
      (acc.map Prod.fst).Nodup →
      ((ps.foldl (fun d q => dinsert d q (f q)) acc).map Prod.fst).Nodup := by
  intro ps
  induction ps with
  | nil => intro acc h; exact h
  | cons q t ih =>
    intro acc h
    rw [List.foldl_cons]
    exact ih _ (nodup_dinsert acc q (f q) h)

theorem batchGo_fst (st : V2State) (oracle : String → Option (List ℚ))
    (pn : String → String) (total : ℕ) :
    ∀ (ps : List String) (i : ℕ) (acc : List (String × ℕ)),
      (batchGo st oracle pn total i acc ps).1
        = ps.foldl (fun d q => dinsert d q (compareFace st oracle q)) acc := by
  intro ps
  induction ps with
  | nil => intro i acc; rfl
  | cons q t ih => intro i acc; exact ih _ _

theorem batchGo_snd (st : V2State) (oracle : String → Option (List ℚ))
    (pn : String → String) (total : ℕ) :
    ∀ (ps : List String) (i : ℕ) (acc : List (String × ℕ)),
      (batchGo st oracle pn total i acc ps).2
        = (List.enumFrom i ps).flatMap (fun ip =>
            [BatchEvent.call (ip.1 + 1) total (pn ip.2),
             BatchEvent.item ip.2 (compareFace st oracle ip.2)]) := by
  intro ps
  induction ps with
  | nil => intro i acc; rfl
  | cons q t ih =>
    intro i acc
    simp only [batchGo, List.enumFrom, List.flatMap_cons, ih]
    rfl

/-- Counterexample to C3 as stated: (a) the progress callback fires *before*
each item is processed, not after it — on a one-item batch the observable
trace starts with the callback invocation, not with the item's completion;
(b) on a batch with a duplicated path the result dict has one entry, not one
entry per input list position. -/
theorem C3_counterexample :
    (batchCompare ⟨[[1]], [("a")]⟩ (oracleConst [1]) (fun s => s) [("x")]).2
      = [BatchEvent.call 1 1 ("x"), BatchEvent.item ("x") 5]
    ∧ [BatchEvent.call 1 1 ("x"), BatchEvent.item ("x") 5]
      ≠ [BatchEvent.item ("x") 5, BatchEvent.call 1 1 ("x")]
    ∧ (batchCompare ⟨[[1]], [("a")]⟩ (oracleConst [1]) (fun s => s)
        [("x"), ("x")]).1.length = 1
    ∧ (1 : ℕ) ≠ 2 :=
  ⟨by norm_num [batchCompare, batchGo, compareFace, oracleConst, dot, listMax,
      v2Rating, dinsert],
   by decide,
   by norm_num [batchCompare, batchGo, compareFace, oracleConst, dot, listMax,
      v2Rating, dinsert],
   by decide⟩

/-- C3 (amended): for every finite list of input image paths, batch comparison
returns a result dict with exactly one entry per *distinct* input path
(every input path is a key, every key is an input path, no key repeats), and
the value stored for a path is its `compare_face` rating; an item whose
processing fails (decode error, no face, extractor error) gets rating 0 and
does not abort the remaining items; and the progress callback is invoked with
`(1-based index, total, item basename)` immediately *before* each item is
processed. -/
theorem C3_batch_compare (st : V2State) (oracle : String → Option (List ℚ))
    (pn : String → String) (paths : List String) :
    (∀ p ∈ paths, alookup (batchCompare st oracle pn paths).1 p
        = some (compareFace st oracle p))
    ∧ (∀ pr ∈ (batchCompare st oracle pn paths).1,
        pr.1 ∈ paths ∧ pr.2 = compareFace st oracle pr.1)
    ∧ ((batchCompare st oracle pn paths).1.map Prod.fst).Nodup
    ∧ (∀ p ∈ paths, oracle p = none →
        alookup (batchCompare st oracle pn paths).1 p = some 0)
    ∧ (batchCompare st oracle pn paths).2
        = (List.enumFrom 0 paths).flatMap (fun ip =>
            [BatchEvent.call (ip.1 + 1) paths.length (pn ip.2),
             BatchEvent.item ip.2 (compareFace st oracle ip.2)]) := by
  have hfst := batchGo_fst st oracle pn paths.length paths 0 []
  refine ⟨?_, ?_, ?_, ?_, ?_⟩
  · intro p hp
    rw [batchCompare, hfst]
    exact foldl_dinsert_alookup _ paths [] p (Or.inr hp)
  · intro pr hpr
    rw [batchCompare, hfst] at hpr
    rcases foldl_dinsert_mem _ paths [] pr hpr with h | h
    · simp at h
    · exact h
  · rw [batchCompare, hfst]
    exact foldl_dinsert_nodup _ paths [] (by simp)
  · intro p hp ho
    have h0 : compareFace st oracle p = 0 := by
      rw [compareFace]
      by_cases hb : st.benchmarkEmbeddings = []
      · rw [if_pos hb]
      · rw [if_neg hb, ho]
    rw [batchCompare, hfst]
    have := foldl_dinsert_alookup (fun q => compareFace st oracle q) paths [] p (Or.inr hp)
    simpa [h0] using this
  · rw [batchCompare]
    exact batchGo_snd st oracle pn paths.length paths 0 []

/-- Witness for C3 on a concrete two-path batch whose second image fails:
the failing item is present with rating 0. -/
theorem C3_batch_compare_witness :
    alookup (batchCompare ⟨[[1]], [("a")]⟩
        (fun p => if p = "good" then some [1] else none) (fun s => s)
        [("good"), ("bad")]).1 ("bad") = some 0 :=
  ((C3_batch_compare ⟨[[1]], [("a")]⟩
      (fun p => if p = "good" then some [1] else none) (fun s => s)
      [("good"), ("bad")]).2.2.2.1) ("bad") (by decide) (by decide)

/-- For every rational, `max 0 (1 - x)` equals `1 - min x 1`: the source's
clamped form and the spec's min form of the distance-to-similarity map agree. -/
theorem max0_one_sub (x : ℚ) : max 0 (1 - x) = 1 - min x 1 := by
  rcases le_total x 1 with h | h
  · rw [min_eq_left h, max_eq_right (by linarith)]
  · rw [min_eq_right h, max_eq_left (by linarith)]
    norm_num

/-- The source similarity computation coincides with the spec's formulas for
every metric and all parameter values. -/
theorem computeSimilarity_eq_spec (metric : Metric) (a b : List ℚ)
    (na nb d dl2 : ℚ) :
    computeSimilarity metric a b na nb d dl2 = specSimilarity metric a b na nb d dl2 := by
  cases metric with
  | cosine => rfl
  | euclidean => exact max0_one_sub _
  | euclideanL2 => exact max0_one_sub _

/-- C6: for all pairs of embeddings, the similarity scorer computes cosine as
`dot(a,b) / (‖a‖·‖b‖ + ε)`, euclidean as `1 − min(‖a−b‖/1.5, 1)` (equivalently
the source's `max(0, 1 − ‖a−b‖/1.5)`), and euclidean_l2 as `1 − min(d/2, 1)`
where `d` is the Euclidean distance between the separately L2-normalized
inputs.  The hypotheses pin `na, nb, d, dl2` to be exactly those norms. -/
theorem C6_similarity_metrics (metric : Metric) (a b : List ℚ) (na nb d dl2 : ℚ)
    (hna : IsL2Norm a na) (hnb : IsL2Norm b nb)
    (hd : IsL2Norm (vsub a b) d)
    (hdl2 : IsL2Norm (vsub (scaleInv na a) (scaleInv nb b)) dl2) :
    computeSimilarity metric a b na nb d dl2
      = specSimilarity metric a b na nb d dl2 :=
  computeSimilarity_eq_spec metric a b na nb d dl2

/-- Witness for C6 at `a = b = [3, 4]` (norm 5, distances 0). -/
theorem C6_similarity_metrics_witness :
    IsL2Norm [3, 4] 5
    ∧ computeSimilarity Metric.euclidean [3, 4] [3, 4] 5 5 0 0
        = specSimilarity Metric.euclidean [3, 4] [3, 4] 5 5 0 0 :=
  ⟨by norm_num [IsL2Norm, sumSq],
   C6_similarity_metrics Metric.euclidean [3, 4] [3, 4] 5 5 0 0
     (by norm_num [IsL2Norm, sumSq])
     (by norm_num [IsL2Norm, sumSq])
     (by norm_num [IsL2Norm, sumSq, vsub])
     (by norm_num [IsL2Norm, sumSq, vsub, scaleInv])⟩

/-- Counterexample to C7 as stated: an unreadable image (`cv2.imread` gave
`None`) makes `detect_faces` return the silent `None` — the very same value
the no-face outcome produces — instead of raising a `DecodeError`; no such
exception class exists in the source. -/
theorem C7_counterexample :
    detectFaces (fun _ => [⟨9 / 10, 0, 0, 10, 10⟩]) (1 / 2) none = none
    ∧ detectFaces (fun _ => []) (1 / 2) (some ⟨100, 100⟩) = none :=
  ⟨rfl, rfl⟩

/-- C7 (amended): for every corrupt or unreadable input file, face location
silently returns `None` (after logging a warning) — the same silent outcome
produced when no detection survives — so the decode-failure outcome is not
distinguishable from the no-face outcome and no `DecodeError` is raised. -/
theorem C7_decode_failure_silent (dets : Img → List Detection) (θ : ℚ) (im : Img)
    (hnf : survivors θ im.w im.h (dets im) = []) :
    detectFaces dets θ none = none ∧ detectFaces dets θ (some im) = none := by
  constructor
  · rfl
  · simp [detectFaces, hnf, pickBest]

/-- Witness for C7 with a detector that reports nothing. -/
theorem C7_decode_failure_silent_witness :
    detectFaces (fun _ => []) (1 / 2) none = none
    ∧ detectFaces (fun _ => []) (1 / 2) (some ⟨100, 100⟩) = none :=
  C7_decode_failure_silent (fun _ => []) (1 / 2) ⟨100, 100⟩ rfl

/-- Counterexample to C8 as stated: the scorer applied to two descriptors
carrying different model tags returns the silent numeric similarity `0`
computed from the raw vectors; no `IncompatibleDescriptorsError` is raised
(the source stores descriptors as bare arrays with no tag at all). -/
theorem C8_counterexample :
    ("Facenet" : String) ≠ ("ArcFace" : String)
    ∧ scoreDescriptors Metric.cosine ⟨("Facenet"), [1, 0]⟩ ⟨("ArcFace"), [0, 1]⟩
        1 1 0 0 = 0 := by
  constructor
  · decide
  · norm_num [scoreDescriptors, computeSimilarity, dot, eps]

/-- C8 (amended): for every pair of descriptors produced by different
extraction strategies or embedding models (mismatched tags), the similarity
scorer performs no tag check and returns the numeric metric value of the raw
vectors — exactly the spec's formula for the metric — never an
`IncompatibleDescriptorsError`. -/
theorem C8_no_tag_check (metric : Metric) (t1 t2 : String) (v w : List ℚ)
    (na nb d dl2 : ℚ) (hna : IsL2Norm v na) (hnb : IsL2Norm w nb)
    (hd : IsL2Norm (vsub v w) d)
    (hdl2 : IsL2Norm (vsub (scaleInv na v) (scaleInv nb w)) dl2)
    (hmismatch : t1 ≠ t2) :
    scoreDescriptors metric ⟨t1, v⟩ ⟨t2, w⟩ na nb d dl2
      = specSimilarity metric v w na nb d dl2 :=
  computeSimilarity_eq_spec metric v w na nb d dl2

/-- Witness for C8 at concrete mismatched tags and `v = w = [3, 4]`. -/
theorem C8_no_tag_check_witness :
    scoreDescriptors Metric.cosine ⟨("Facenet"), [3, 4]⟩ ⟨("ArcFace"), [3, 4]⟩
        5 5 0 0
      = specSimilarity Metric.cosine [3, 4] [3, 4] 5 5 0 0 :=
  C8_no_tag_check Metric.cosine ("Facenet") ("ArcFace") [3, 4] [3, 4] 5 5 0 0
    (by norm_num [IsL2Norm, sumSq])
    (by norm_num [IsL2Norm, sumSq])
    (by norm_num [IsL2Norm, sumSq, vsub])
    (by norm_num [IsL2Norm, sumSq, vsub, scaleInv])
    (by decide)

/-! Lemmas for the descriptor-normalization claim. -/

theorem sumSq_nonneg (l : List ℚ) : 0 ≤ sumSq l := by
  rw [sumSq]
  apply List.sum_nonneg
  intro x hx
  rcases List.mem_map.mp hx with ⟨y, _, hy⟩
  rw [← hy]
  positivity

theorem sumSq_append (a b : List ℚ) : sumSq (a ++ b) = sumSq a + sumSq b := by
  rw [sumSq, sumSq, sumSq, List.map_append, List.sum_append]

theorem sumSq_map_div (l : List ℚ) (c : ℚ) :
    sumSq (l.map (fun x => x / c)) = sumSq l / c ^ 2 := by
  rw [sumSq, List.map_map, sumSq]
  have h : ((fun x => x ^ 2) ∘ fun x : ℚ => x / c) = fun x : ℚ => x ^ 2 * (1 / c ^ 2) := by
    funext x
    rw [Function.comp_apply, div_pow]
    ring
  rw [h, List.sum_map_mul_right, mul_one_div]

theorem listRangeMapSum (n : ℕ) (f : ℕ → ℚ) :
    ((List.range n).map f).sum = ∑ b ∈ Finset.range n, f b := by
  induction n with
  | zero => simp
  | succ m ih =>
    rw [List.range_succ, List.map_append, List.sum_append, Finset.sum_range_succ, ih]
    simp

theorem lbpCode_lt (g : ℕ → ℕ → ℕ) (i j : ℕ) : lbpCode g i j < 256 := by
  have h1 : (if g (i - 1) (j - 1) > g i j then 128 else 0) ≤ 128 := by split <;> omega
  have h2 : (if g (i - 1) j > g i j then 64 else 0) ≤ 64 := by split <;> omega
  have h3 : (if g (i - 1) (j + 1) > g i j then 32 else 0) ≤ 32 := by split <;> omega
  have h4 : (if g i (j + 1) > g i j then 16 else 0) ≤ 16 := by split <;> omega
  have h5 : (if g (i + 1) (j + 1) > g i j then 8 else 0) ≤ 8 := by split <;> omega
  have h6 : (if g (i + 1) j > g i j then 4 else 0) ≤ 4 := by split <;> omega
  have h7 : (if g (i + 1) (j - 1) > g i j then 2 else 0) ≤ 2 := by split <;> omega
  have h8 : (if g i (j - 1) > g i j then 1 else 0) ≤ 1 := by split <;> omega
  rw [lbpCode]
  omega

theorem interior_card : interior.card = 15876 := by
  rw [interior, Finset.card_product]
  simp

theorem lbpHistTotal_eq (g : ℕ → ℕ → ℕ) : lbpHistTotal g = 15876 := by
  have h : interior.card
      = ∑ b ∈ Finset.range 256,
          (interior.filter (fun p => lbpCode g (p.1 + 1) (p.2 + 1) = b)).card :=
    Finset.card_eq_sum_card_fiberwise
      (fun p _ => Finset.mem_range.mpr (lbpCode_lt g (p.1 + 1) (p.2 + 1)))
  rw [lbpHistTotal]
  have hc : ∑ b ∈ Finset.range 256, lbpCount g b
      = ∑ b ∈ Finset.range 256,
          (interior.filter (fun p => lbpCode g (p.1 + 1) (p.2 + 1) = b)).card := rfl
  rw [hc, ← h, interior_card]

theorem lbpList_sum (g : ℕ → ℕ → ℕ) :
    (lbpList g).sum = 15876 / (15876 + eps) := by
  rw [lbpList, listRangeMapSum]
  simp only [lbpHist]
  rw [← Finset.sum_div, ← Nat.cast_sum]
  have hc : ∑ b ∈ Finset.range 256, lbpCount g b = lbpHistTotal g := rfl
  rw [hc, lbpHistTotal_eq g]
  norm_num

theorem lbpList_sumSq_eq (g : ℕ → ℕ → ℕ) :
    sumSq (lbpList g) = ∑ b ∈ Finset.range 256, lbpHist g b ^ 2 := by
  rw [sumSq, lbpList, List.map_map, listRangeMapSum]
  rfl

theorem lbpList_sumSq_lower (g : ℕ → ℕ → ℕ) :
    (15876 / (15876 + eps)) ^ 2 / 256 ≤ sumSq (lbpList g) := by
  have hcs : (∑ b ∈ Finset.range 256, lbpHist g b) ^ 2
      ≤ ((Finset.range 256).card : ℚ) * ∑ b ∈ Finset.range 256, lbpHist g b ^ 2 :=
    sq_sum_le_card_mul_sum_sq
  rw [Finset.card_range] at hcs
  rw [← listRangeMapSum 256 (lbpHist g)] at hcs
  have hsum : ((List.range 256).map (lbpHist g)).sum = 15876 / (15876 + eps) :=
    lbpList_sum g
  rw [hsum] at hcs
  rw [lbpList_sumSq_eq g]
  have h256 : ((256 : ℕ) : ℚ) = 256 := by norm_num
  rw [h256] at hcs
  linarith

/-- C5: for every face region accepted by the handcrafted extractor (the LBP
sub-histogram of its 128×128 grayscale crop, together with arbitrary HOG and
color sub-histograms), the produced descriptor is the concatenation divided by
its Euclidean norm plus epsilon; its squared L2 norm is exactly
`(‖v‖/(‖v‖+ε))²` — this first conjunct holds for *every* vector, including an
all-zero one — and the norm is within `10⁻⁵` of 1, because the L1-normalized
LBP histogram forces the concatenated vector's norm above `1/32`. -/
theorem C5_descriptor_unit_norm (g : ℕ → ℕ → ℕ) (hog color : List ℚ) (n : ℚ)
    (hn0 : 0 ≤ n) (hn : n ^ 2 = sumSq (fullEmbedding g hog color)) :
    (∀ (v : List ℚ) (m : ℚ), m ^ 2 = sumSq v →
        sumSq (normalizeWith m v) = (m / (m + eps)) ^ 2)
    ∧ sumSq (normalizeWith n (fullEmbedding g hog color)) = (n / (n + eps)) ^ 2
    ∧ 1 - 1 / 100000 ≤ n / (n + eps)
    ∧ n / (n + eps) ≤ 1 := by
  have hgen : ∀ (v : List ℚ) (m : ℚ), m ^ 2 = sumSq v →
      sumSq (normalizeWith m v) = (m / (m + eps)) ^ 2 := by
    intro v m hm
    rw [normalizeWith, sumSq_map_div, ← hm, div_pow]
  have hlbp := lbpList_sumSq_lower g
  have happ : sumSq (fullEmbedding g hog color)
      = sumSq (lbpList g) + sumSq hog + sumSq color := by
    rw [fullEmbedding, sumSq_append, sumSq_append]
  have hhog := sumSq_nonneg hog
  have hcol := sumSq_nonneg color
  have hsig : (1 : ℚ) / 2 ≤ 15876 / (15876 + eps) := by norm_num [eps]
  have hsig2 : (1 : ℚ) / 1024 ≤ (15876 / (15876 + eps)) ^ 2 / 256 := by nlinarith
  have hn2 : (1 : ℚ) / 1024 ≤ n ^ 2 := by
    rw [hn, happ]
    linarith
  have hn32 : (1 : ℚ) / 32 ≤ n := by
    by_contra hlt
    push_neg at hlt
    have hsq : n ^ 2 < (1 / 32 : ℚ) ^ 2 := by nlinarith
    norm_num at hsq
    linarith
  have hepspos : (0 : ℚ) < eps := by norm_num [eps]
  have hpos : (0 : ℚ) < n + eps := by linarith
  refine ⟨hgen, hgen _ n hn, ?_, ?_⟩
  · rw [le_div_iff₀ hpos]
    have heps : eps = 1 / 10000000 := rfl
    nlinarith
  · rw [div_le_one hpos]
    linarith

theorem lbpCode_zero (i j : ℕ) : lbpCode (fun _ _ => 0) i j = 0 := by
  simp [lbpCode]

theorem lbpCount_zero (b : ℕ) :
    lbpCount (fun _ _ => 0) b = if b = 0 then 15876 else 0 := by
  rw [lbpCount]
  have hc : interior.filter
        (fun p => lbpCode (fun _ _ => 0) (p.1 + 1) (p.2 + 1) = b)
      = interior.filter (fun _ => 0 = b) :=
    Finset.filter_congr (fun x _ => by rw [lbpCode_zero])
  rw [hc]
  by_cases hb : b = 0
  · subst hb
    simp [interior_card]
  · simp [Ne.symm hb, hb]

theorem lbpHist_zero (b : ℕ) :
    lbpHist (fun _ _ => 0) b = if b = 0 then 15876 / (15876 + eps) else 0 := by
  rw [lbpHist, lbpCount_zero, lbpHistTotal_eq]
  by_cases hb : b = 0 <;> simp [hb]

theorem lbpList_zero_sumSq :
    sumSq (lbpList (fun _ _ => 0)) = (15876 / (15876 + eps)) ^ 2 := by
  rw [lbpList_sumSq_eq]
  have h : ∀ b ∈ Finset.range 256, lbpHist (fun _ _ => 0) b ^ 2
      = if b = 0 then (15876 / (15876 + eps)) ^ 2 else 0 := by
    intro b _
    rw [lbpHist_zero]
    by_cases hb : b = 0 <;> simp [hb]
  rw [Finset.sum_congr rfl h, Finset.sum_ite_eq' (Finset.range 256) 0
    (fun _ => (15876 / (15876 + eps)) ^ 2)]
  simp

/-- Witness for C5 at the constant-zero crop (all LBP mass in bin 0) with
empty HOG/color parts: the exact norm is `15876/(15876+ε)` and the normalized
descriptor's norm is within `10⁻⁵` of 1. -/
theorem C5_descriptor_unit_norm_witness :
    (0 : ℚ) ≤ 15876 / (15876 + eps)
    ∧ (15876 / (15876 + eps)) ^ 2 = sumSq (fullEmbedding (fun _ _ => 0) [] [])
    ∧ 1 - 1 / 100000
        ≤ 15876 / (15876 + eps) / (15876 / (15876 + eps) + eps) := by
  have h0 : (0 : ℚ) ≤ 15876 / (15876 + eps) := by norm_num [eps]
  have h2 : (15876 / (15876 + eps)) ^ 2
      = sumSq (fullEmbedding (fun _ _ => 0) [] []) := by
    rw [fullEmbedding, List.append_nil, List.append_nil, lbpList_zero_sumSq]
  exact ⟨h0, h2, (C5_descriptor_unit_norm (fun _ _ => 0) [] [] _ h0 h2).2.2.1⟩

end Nova
